import Mathlib

/-!
# Verification of the stock-dashboard normalization and metrics core

Shallow embedding of `src/app.py` (a Streamlit stock dashboard).  Tables are
modelled as ordered lists of named columns whose cells are `Option ℚ`
(`none` models a pandas `NaN`/null cell; rationals stand in for floats —
every claim under study is exact arithmetic, no rounding is involved).

The embedding covers:
* `get_stock_data` (app.py lines 29–57): the fetch post-processing that
  flattens a MultiIndex, locates the close column, and derives
  Daily Return / Cumulative Return / Max Drawdown;
* the summary metrics (lines 121–124);
* the chart-stage close checks (lines 86–98);
* the table cell-coloring function `highlight_returns` (lines 138–141);
* the top-level script control flow with its date validation (lines 22–24,
  59–64), with the external fetch abstracted as a parameter.

Pandas semantics captured: `pct_change` leaves the first entry null and is
null wherever the previous or current value is null (no fill is applied —
no claim exercises internal nulls); `cumprod`/`cummax` skip nulls
(`skipna=True`): null cells stay null and do not enter the running
product/maximum; `mean`/`std`/`min` skip nulls, `std` uses `ddof=1`, and
each yields null when no (resp. fewer than two) defined values remain.
Division by zero (pandas: ±inf) falls outside the rational model and is
mapped to null; every claim under study assumes strictly positive prices,
so this branch is never exercised.
-/

namespace StockDash

/-- One table cell: `none` models a pandas null (`NaN`). -/
abbrev Cell := Option ℚ

/-- A flat pandas DataFrame: ordered named columns of cells.
(The date index is not part of the model; no claim depends on it.) -/
structure Table where
  cols : List (String × List Cell)
deriving DecidableEq

/-- The raw `yf.download` result: either a flat column index or a
two-level MultiIndex (field × ticker) of column names. -/
inductive RawTable
  | flat (cols : List (String × List Cell))
  | multi (cols : List (List String × List Cell))
deriving DecidableEq

/-- `df.empty` (app.py line 33): no rows (or no columns at all). -/
def RawTable.isEmpty : RawTable → Bool
  | .flat cols => cols.all (fun c => c.2.isEmpty)
  | .multi cols => cols.all (fun c => c.2.isEmpty)

/-- Line 38: `'_'.join([str(i) for i in col if i])` — join the non-empty
levels of one MultiIndex column name with `_`. -/
def flattenName (levels : List String) : String :=
  String.intercalate "_" (levels.filter (fun l => l != ""))

/-- Lines 37–38: flatten the column index when it is a MultiIndex;
a flat index is left as is. -/
def flattenRaw : RawTable → Table
  | .flat cols => ⟨cols⟩
  | .multi cols => ⟨cols.map (fun c => (flattenName c.1, c.2))⟩

/-- Python `col.lower()` as a character list (`str.lower` on the ASCII
column names in scope). -/
def lowerName (s : String) : List Char := s.toList.map Char.toLower

/-- Line 41: `"close" in col.lower()` — case-insensitive substring test. -/
def hasCloseSub (name : String) : Bool :=
  decide ("close".toList <:+: lowerName name)

/-- `df[name]`: the first column bearing `name` (pandas column lookup;
`none` models a `KeyError`). -/
def getCol (t : Table) (name : String) : Option (List Cell) :=
  (t.cols.find? (fun c => c.1 == name)).map (fun c => c.2)

/-- `df[name] = vals`: overwrite every column bearing `name` in place,
or append a new column at the end (pandas `__setitem__`). -/
def setCol (t : Table) (name : String) (vals : List Cell) : Table :=
  if t.cols.any (fun c => c.1 == name) then
    ⟨t.cols.map (fun c => if c.1 == name then (name, vals) else c)⟩
  else ⟨t.cols ++ [(name, vals)]⟩

/-- Lines 41/46: `close_candidates[0]` — the first column (in column
order) whose name contains "close" case-insensitively.  (`df[close_col]`
selects the first column with that name, which is this column.) -/
def firstCloseCandidate (t : Table) : Option (String × List Cell) :=
  t.cols.find? (fun c => hasCloseSub c.1)

/-- Tail of `pct_change`: `prev` is the preceding cell.  Null when either
neighbour is null; division by a zero price (pandas: ±inf) is outside the
rational model and mapped to null — unreachable for positive prices. -/
def pctChangeGo : Cell → List Cell → List Cell
  | _, [] => []
  | prev, c :: rest =>
    (match prev, c with
     | some p, some x => if p = 0 then none else some (x / p - 1)
     | _, _ => none) :: pctChangeGo c rest

/-- Line 50: `df["Close"].pct_change()` — first entry null, then the
fractional change from the previous entry. -/
def pctChange : List Cell → List Cell
  | [] => []
  | c :: rest => none :: pctChangeGo c rest

/-- `Series.cumprod()` with `skipna=True`: null cells stay null and do not
enter the running product `acc`. -/
def cumprodGo (acc : ℚ) : List Cell → List Cell
  | [] => []
  | none :: rest => none :: cumprodGo acc rest
  | some x :: rest => some (acc * x) :: cumprodGo (acc * x) rest

/-- `Series.cumprod()` (running product over defined cells). -/
def cumprod (xs : List Cell) : List Cell := cumprodGo 1 xs

/-- `Series.cummax()` with `skipna=True`: null cells stay null and do not
enter the running maximum. -/
def cummaxGo : Option ℚ → List Cell → List Cell
  | _, [] => []
  | acc, none :: rest => none :: cummaxGo acc rest
  | acc, some x :: rest =>
    (match acc with
     | none => some x :: cummaxGo (some x) rest
     | some a => some (max a x) :: cummaxGo (some (max a x)) rest)

/-- `df["Close"].cummax()` (line 52). -/
def cummax (xs : List Cell) : List Cell := cummaxGo none xs

/-- Line 51: `(1 + df["Daily Return"]).cumprod() - 1`. -/
def cumulativeReturn (dr : List Cell) : List Cell :=
  (cumprod (dr.map (Option.map (fun r => 1 + r)))).map
    (Option.map (fun p => p - 1))

/-- Line 52: `(df["Close"] / df["Close"].cummax()) - 1` (cell-wise; a zero
running maximum — impossible for positive prices — maps to null, see
`pctChangeGo`). -/
def maxDrawdownCol (close : List Cell) : List Cell :=
  (close.zip (cummax close)).map (fun p =>
    match p.1, p.2 with
    | some c, some m => if m = 0 then none else some (c / m - 1)
    | _, _ => none)

/-- Result of `get_stock_data`: the code returns `None` both for an empty
download and for a missing close column, but the two paths are observably
distinct (the latter also emits the "No 'Close' column found" error,
line 43) — `empty` is the spec's `NotFound`, `noClose` its `MissingField`. -/
inductive NormResult
  | empty
  | noClose
  | ok (t : Table)
deriving DecidableEq

/-- Lines 29–54: the post-fetch normalization.  Flatten a MultiIndex, find
the first close-like column, copy it to `Close`, then derive
`Daily Return`, `Cumulative Return`, `Max Drawdown` in that order. -/
def get_stock_data (raw : RawTable) : NormResult :=
  if raw.isEmpty then .empty
  else
    let df := flattenRaw raw
    match firstCloseCandidate df with
    | none => .noClose
    | some cand =>
      let cvals := cand.2
      let df1 := setCol df "Close" cvals
      let dr := pctChange cvals
      let df2 := setCol df1 "Daily Return" dr
      let df3 := setCol df2 "Cumulative Return" (cumulativeReturn dr)
      let df4 := setCol df3 "Max Drawdown" (maxDrawdownCol cvals)
      .ok df4

/-- `Series.mean()`: mean of the defined cells, null when none remain. -/
def meanSkipna (xs : List Cell) : Option ℚ :=
  let v := xs.filterMap id
  if v.length = 0 then none
  else some (v.sum / (v.length : ℚ))

/-- The square of `Series.std()` (`ddof=1`): the sample variance of the
defined cells, null when fewer than two remain.  The source's volatility
is the square root of this; their null-ness coincides, and the square
root itself lies outside the rational model. -/
def sampleVar (xs : List Cell) : Option ℚ :=
  let v := xs.filterMap id
  if v.length < 2 then none
  else
    let m := v.sum / (v.length : ℚ)
    some ((v.map (fun x => (x - m) ^ 2)).sum / ((v.length : ℚ) - 1))

/-- `Series.min()`: least defined cell, null when none remain. -/
def minSkipna (xs : List Cell) : Option ℚ :=
  (xs.filterMap id).foldr (fun x acc =>
    match acc with
    | none => some x
    | some a => some (min x a)) none

/-- Line 121: `stock_data["Cumulative Return"].iloc[-1]` (null when the
column is absent or empty, which cannot happen for a normalized table). -/
def total_return (t : Table) : Option ℚ :=
  ((getCol t "Cumulative Return").bind List.getLast?).join

/-- Line 122: `stock_data["Daily Return"].mean()`. -/
def avg_daily_return (t : Table) : Option ℚ :=
  (getCol t "Daily Return").bind meanSkipna

/-- Line 123: `stock_data["Daily Return"].std()` — tracked as the sample
variance (see `sampleVar`); null exactly when the source's std is NaN. -/
def volatility (t : Table) : Option ℚ :=
  (getCol t "Daily Return").bind sampleVar

/-- Line 124: `stock_data["Max Drawdown"].min()`. -/
def max_drawdown (t : Table) : Option ℚ :=
  (getCol t "Max Drawdown").bind minSkipna

/-- Outcome of the chart stage (lines 86–117): halt with "No 'Close'
column" (line 92), halt with "Close column contains only null values"
(line 97), or hand the close series to `px.line` (line 101). -/
inductive ChartOutcome
  | noClose
  | allNull
  | rendered (close : List Cell)
deriving DecidableEq

/-- Lines 86–108: recover a `Close` column if absent (close-candidate
sniffing, lines 86–93), halt when `Close.dropna()` is empty (lines
96–98), otherwise plot.  (The `Date`-index handling of lines 70–84
concerns datetime dtypes and is outside the data model; no claim
depends on it.) -/
def chart_stage (t : Table) : ChartOutcome :=
  let t1 :=
    match getCol t "Close" with
    | some _ => t
    | none =>
      match firstCloseCandidate t with
      | some cand => setCol t "Close" cand.2
      | none => t
  match getCol t1 "Close" with
  | none => .noClose
  | some close =>
    if (close.filterMap id).isEmpty then .allNull else .rendered close

/-- Lines 138–141: the table cell-coloring function.  A pure function of
the cell: null ↦ blank, `val > 0` ↦ green, otherwise red. -/
def highlight_returns (val : Cell) : String :=
  match val with
  | none => ""
  | some v => if v > 0 then "color: green" else "color: red"

/-- Where one run of the script ends. -/
inductive Outcome
  | invalidRange
  | noData
  | chartHalted
  | rendered (t : Table)
deriving DecidableEq

/-- Trace of one script run: how many fetch calls were issued, whether
the normalizer (`get_stock_data`) ran, and where the run ended. -/
structure ScriptResult where
  fetchCalls : ℕ
  reachedNormalizer : Bool
  outcome : Outcome
deriving DecidableEq

/-- Top-level control flow of app.py for one request (lines 22–24, 59–64,
86–117).  Dates are day numbers (ℤ); the external fetch is abstracted by
`fetchResult`, the table `yf.download` would return.  Line 22 rejects the
request (`st.stop()`, zero fetches) when `start > end` or either date is
in the future; otherwise the fetch is issued once and its result
normalized, then charted. -/
def run_script (today startD endD : ℤ) (fetchResult : RawTable) :
    ScriptResult :=
  if startD > endD ∨ startD > today ∨ endD > today then
    ⟨0, false, .invalidRange⟩
  else
    match get_stock_data fetchResult with
    | .empty => ⟨1, true, .noData⟩
    | .noClose => ⟨1, true, .noData⟩
    | .ok t =>
      match chart_stage t with
      | .rendered _ => ⟨1, true, .rendered t⟩
      | _ => ⟨1, true, .chartHalted⟩

/-! ## Column-access lemmas -/

lemma find?_update_self (cols : List (String × List Cell)) (n : String) (v : List Cell)
    (h : cols.any (fun c => c.1 == n) = true) :
    (cols.map (fun c => if c.1 == n then (n, v) else c)).find? (fun c => c.1 == n)
      = some (n, v) := by
  induction cols with
  | nil => simp at h
  | cons c cs ih =>
    simp only [List.map_cons, List.find?_cons]
    by_cases hc : c.1 = n
    · rw [if_pos (by simpa using hc)]
      simp only [show ((n, v).1 == n) = true by simp]
    · have hb : (c.1 == n) = false := by simpa using hc
      rw [if_neg (by simp [hc])]
      simp only [hb]
      simp only [List.any_cons, hb, Bool.false_or] at h
      exact ih h

lemma find?_update_ne (cols : List (String × List Cell)) (n : String) (v : List Cell)
    (m : String) (h : m ≠ n) :
    (cols.map (fun c => if c.1 == n then (n, v) else c)).find? (fun c => c.1 == m)
      = cols.find? (fun c => c.1 == m) := by
  induction cols with
  | nil => simp only [List.map_nil]
  | cons c cs ih =>
    simp only [List.map_cons, List.find?_cons]
    by_cases hc : c.1 = n
    · rw [if_pos (by simpa using hc)]
      have h1 : ((n, v).1 == m) = false := by
        simp only [beq_eq_false_iff_ne, ne_eq]
        exact fun e => h e.symm
      have h2 : (c.1 == m) = false := by
        rw [hc]
        simpa using fun e => h e.symm
      simp only [h1, h2]
      exact ih
    · rw [if_neg (by simp [hc])]
      cases hcm : (c.1 == m) with
      | true => simp only [hcm]
      | false => simp only [hcm]; exact ih

lemma getCol_setCol_self (t : Table) (n : String) (v : List Cell) :
    getCol (setCol t n v) n = some v := by
  unfold setCol getCol
  cases ha : t.cols.any (fun c => c.1 == n) with
  | true =>
    rw [if_pos rfl]
    show Option.map _ ((t.cols.map (fun c => if c.1 == n then (n, v) else c)).find? (fun c => c.1 == n)) = _
    rw [find?_update_self t.cols n v ha]
    rfl
  | false =>
    rw [if_neg (by simp)]
    show Option.map _ ((t.cols ++ [(n, v)]).find? (fun c => c.1 == n)) = _
    rw [List.find?_append]
    have h0 : t.cols.find? (fun c => c.1 == n) = none := by
      rw [List.find?_eq_none]
      intro x hx
      have := (List.any_eq_false.mp ha) x hx
      simpa using this
    rw [h0]
    simp only [Option.none_or]
    simp only [List.find?_cons, show ((n, v).1 == n) = true by simp]
    rfl

lemma getCol_setCol_ne (t : Table) (n : String) (v : List Cell) (m : String) (h : m ≠ n) :
    getCol (setCol t n v) m = getCol t m := by
  unfold setCol getCol
  cases ha : t.cols.any (fun c => c.1 == n) with
  | true =>
    rw [if_pos rfl]
    show Option.map _ ((t.cols.map (fun c => if c.1 == n then (n, v) else c)).find? (fun c => c.1 == m)) = _
    rw [find?_update_ne t.cols n v m h]
  | false =>
    rw [if_neg (by simp)]
    show Option.map _ ((t.cols ++ [(n, v)]).find? (fun c => c.1 == m)) = _
    rw [List.find?_append]
    have h1 : ((n, v).1 == m) = false := by
      simp only [beq_eq_false_iff_ne, ne_eq]
      exact fun e => h e.symm
    simp only [List.find?_cons, h1, List.find?_nil, Option.or_none]

/-- The table built by the `.ok` branch of `get_stock_data` from the
flattened frame `df` and the authoritative close values `cvals`
(lines 47–52 as one term, for reasoning). -/
def normTable (df : Table) (cvals : List Cell) : Table :=
  setCol
    (setCol
      (setCol (setCol df "Close" cvals) "Daily Return" (pctChange cvals))
      "Cumulative Return" (cumulativeReturn (pctChange cvals)))
    "Max Drawdown" (maxDrawdownCol cvals)

lemma get_stock_data_ok_iff (raw : RawTable) (t : Table) :
    get_stock_data raw = .ok t ↔
      raw.isEmpty = false ∧
        ∃ cand, firstCloseCandidate (flattenRaw raw) = some cand ∧
          t = normTable (flattenRaw raw) cand.2 := by
  constructor
  · intro h
    unfold get_stock_data at h
    cases he : raw.isEmpty with
    | true => rw [he] at h; simp at h
    | false =>
      rw [he, if_neg (by simp)] at h
      simp only [] at h
      cases hc : firstCloseCandidate (flattenRaw raw) with
      | none => rw [hc] at h; exact absurd h (by simp)
      | some cand =>
        rw [hc] at h
        refine ⟨rfl, cand, rfl, ?_⟩
        simp only [normTable]
        exact (NormResult.ok.inj h).symm
  · rintro ⟨he, cand, hc, ht⟩
    unfold get_stock_data
    rw [he, if_neg (by simp)]
    simp only []
    rw [hc, ht]
    rfl

lemma normTable_close (df : Table) (cvals : List Cell) :
    getCol (normTable df cvals) "Close" = some cvals := by
  unfold normTable
  rw [getCol_setCol_ne _ _ _ _ (by decide), getCol_setCol_ne _ _ _ _ (by decide),
    getCol_setCol_ne _ _ _ _ (by decide), getCol_setCol_self]

lemma normTable_dr (df : Table) (cvals : List Cell) :
    getCol (normTable df cvals) "Daily Return" = some (pctChange cvals) := by
  unfold normTable
  rw [getCol_setCol_ne _ _ _ _ (by decide), getCol_setCol_ne _ _ _ _ (by decide),
    getCol_setCol_self]

lemma normTable_cr (df : Table) (cvals : List Cell) :
    getCol (normTable df cvals) "Cumulative Return"
      = some (cumulativeReturn (pctChange cvals)) := by
  unfold normTable
  rw [getCol_setCol_ne _ _ _ _ (by decide), getCol_setCol_self]

lemma normTable_md (df : Table) (cvals : List Cell) :
    getCol (normTable df cvals) "Max Drawdown"
      = some (maxDrawdownCol cvals) := by
  unfold normTable
  rw [getCol_setCol_self]

lemma normTable_other (df : Table) (cvals : List Cell) (m : String)
    (h1 : m ≠ "Close") (h2 : m ≠ "Daily Return")
    (h3 : m ≠ "Cumulative Return") (h4 : m ≠ "Max Drawdown") :
    getCol (normTable df cvals) m = getCol df m := by
  unfold normTable
  rw [getCol_setCol_ne _ _ _ _ h4, getCol_setCol_ne _ _ _ _ h3,
    getCol_setCol_ne _ _ _ _ h2, getCol_setCol_ne _ _ _ _ h1]

/-! ## Defined-series forms of the derived columns

For a fully defined, nowhere-zero price series the three derived columns
take closed forms: `pctVals` (the defined daily returns), `ratios` (the
successive price ratios `1 + return`), `scanMax` (the running maximum). -/

/-- The defined daily returns of the price series `prev :: cs`. -/
def pctVals (prev : ℚ) : List ℚ → List ℚ
  | [] => []
  | c :: rest => (c / prev - 1) :: pctVals c rest

/-- The successive price ratios of the series `prev :: cs`. -/
def ratios (prev : ℚ) : List ℚ → List ℚ
  | [] => []
  | c :: rest => c / prev :: ratios c rest

/-- The running maximum of `cs` seeded with `a`. -/
def scanMax (a : ℚ) : List ℚ → List ℚ
  | [] => []
  | c :: rest => max a c :: scanMax (max a c) rest

lemma pctChangeGo_defined (cs : List ℚ) : ∀ prev : ℚ, prev ≠ 0 →
    (∀ c ∈ cs, c ≠ 0) →
    pctChangeGo (some prev) (cs.map some) = (pctVals prev cs).map some := by
  induction cs with
  | nil => intro prev _ _; rfl
  | cons c rest ih =>
    intro prev hp hcs
    simp only [List.map_cons, pctChangeGo, pctVals, if_neg hp]
    exact congrArg _ (ih c (hcs c (by simp)) (fun d hd => hcs d (by simp [hd])))

lemma pctChange_defined (c0 : ℚ) (cs : List ℚ) (h0 : c0 ≠ 0)
    (hcs : ∀ c ∈ cs, c ≠ 0) :
    pctChange ((c0 :: cs).map some) = none :: (pctVals c0 cs).map some := by
  simp only [List.map_cons, pctChange]
  exact congrArg _ (pctChangeGo_defined cs c0 h0 hcs)

lemma pctVals_add_one (cs : List ℚ) : ∀ prev : ℚ,
    (pctVals prev cs).map (fun r => 1 + r) = ratios prev cs := by
  induction cs with
  | nil => intro prev; rfl
  | cons c rest ih =>
    intro prev
    simp only [pctVals, List.map_cons, ratios, ih c]
    ring_nf

lemma cumprodGo_ratios (cs : List ℚ) : ∀ prev a : ℚ, prev ≠ 0 →
    (∀ c ∈ cs, c ≠ 0) →
    cumprodGo a ((ratios prev cs).map some)
      = cs.map (fun c => some (a * c / prev)) := by
  induction cs with
  | nil => intro prev a _ _; rfl
  | cons c rest ih =>
    intro prev a hp hcs
    have hc : c ≠ 0 := hcs c (by simp)
    simp only [ratios, List.map_cons, cumprodGo]
    rw [ih c (a * (c / prev)) hc (fun d hd => hcs d (by simp [hd]))]
    have hfun : (fun d => some (a * (c / prev) * d / c))
        = fun d : ℚ => some (a * d / prev) := by
      funext d
      congr 1
      field_simp
      ring
    rw [hfun]
    congr 1
    rw [mul_div_assoc]

lemma cumulativeReturn_defined (c0 : ℚ) (cs : List ℚ) (h0 : c0 ≠ 0)
    (hcs : ∀ c ∈ cs, c ≠ 0) :
    cumulativeReturn (pctChange ((c0 :: cs).map some))
      = none :: cs.map (fun c => some (c / c0 - 1)) := by
  rw [cumulativeReturn, pctChange_defined c0 cs h0 hcs]
  simp only [List.map_cons, Option.map_none', cumprod, cumprodGo, List.map_map]
  have h1 : (Option.map (fun r : ℚ => 1 + r) ∘ some) = fun r : ℚ => some (1 + r) := by
    funext r; rfl
  rw [h1]
  have h2 : ((pctVals c0 cs).map fun r => some (1 + r))
      = (ratios c0 cs).map some := by
    rw [show (fun r : ℚ => some (1 + r)) = some ∘ (fun r : ℚ => 1 + r) from rfl,
      ← List.map_map, pctVals_add_one]
  rw [h2, cumprodGo_ratios cs c0 1 h0 hcs]
  simp only [List.map_map]
  apply congrArg
  apply List.map_congr_left
  intro c _
  simp only [Function.comp_apply, Option.map_some', one_mul]

lemma ratios_take_prod (cs : List ℚ) : ∀ (c0 : ℚ) (i : ℕ) (hi : i < cs.length),
    c0 ≠ 0 → (∀ c ∈ cs, c ≠ 0) →
    ((ratios c0 cs).take (i + 1)).prod = cs.get ⟨i, hi⟩ / c0 := by
  induction cs with
  | nil => intro c0 i hi _ _; simp at hi
  | cons c rest ih =>
    intro c0 i hi h0 hcs
    have hc : c ≠ 0 := hcs c (by simp)
    cases i with
    | zero => simp [ratios]
    | succ j =>
      have hj : j < rest.length := by simpa using hi
      simp only [ratios, List.take_succ_cons, List.prod_cons]
      rw [ih c j hj hc (fun d hd => hcs d (by simp [hd]))]
      show c / c0 * (rest.get ⟨j, hj⟩ / c) = (c :: rest).get ⟨j + 1, hi⟩ / c0
      have : (c :: rest).get ⟨j + 1, hi⟩ = rest.get ⟨j, hj⟩ := rfl
      rw [this]
      field_simp
      ring

lemma cummaxGo_defined (cs : List ℚ) : ∀ a : ℚ,
    cummaxGo (some a) (cs.map some) = (scanMax a cs).map some := by
  induction cs with
  | nil => intro a; rfl
  | cons c rest ih =>
    intro a
    simp only [List.map_cons, cummaxGo, scanMax]
    exact congrArg _ (ih (max a c))

lemma cummax_defined (c0 : ℚ) (cs : List ℚ) :
    cummax ((c0 :: cs).map some) = (c0 :: scanMax c0 cs).map some := by
  simp only [List.map_cons, cummax, cummaxGo]
  exact congrArg _ (cummaxGo_defined cs c0)

lemma scanMax_pos (cs : List ℚ) : ∀ a : ℚ, 0 < a →
    ∀ m ∈ scanMax a cs, 0 < m := by
  induction cs with
  | nil => intro a _ m hm; simp [scanMax] at hm
  | cons c rest ih =>
    intro a ha m hm
    simp only [scanMax, List.mem_cons] at hm
    rcases hm with hm | hm
    · rw [hm]; exact lt_of_lt_of_le ha (le_max_left a c)
    · exact ih (max a c) (lt_of_lt_of_le ha (le_max_left a c)) m hm

lemma scanMax_spec (cs : List ℚ) : ∀ (a : ℚ) (i : ℕ), i < cs.length →
    ∃ c m, cs[i]? = some c ∧ (scanMax a cs)[i]? = some m ∧
      c ≤ m ∧ a ≤ m ∧ (m = a ∨ m ∈ cs.take (i + 1)) ∧
      ∀ x ∈ cs.take (i + 1), x ≤ m := by
  induction cs with
  | nil => intro a i hi; simp at hi
  | cons c rest ih =>
    intro a i hi
    cases i with
    | zero =>
      refine ⟨c, max a c, by simp, by simp [scanMax], le_max_right a c,
        le_max_left a c, ?_, ?_⟩
      · rcases max_choice a c with h | h
        · exact Or.inl h
        · exact Or.inr (by simp [h])
      · intro x hx
        simp only [List.take_succ_cons, List.take_zero] at hx
        simp only [List.mem_singleton] at hx
        rw [hx]; exact le_max_right a c
    | succ j =>
      have hj : j < rest.length := by simpa using hi
      obtain ⟨c', m, hc', hm, hle, hax, hmem, hub⟩ := ih (max a c) j hj
      refine ⟨c', m, by simpa using hc', ?_, hle,
        le_trans (le_max_left a c) hax, ?_, ?_⟩
      · simp only [scanMax, List.getElem?_cons_succ]
        exact hm
      · rcases hmem with h | h
        · rcases max_choice a c with h2 | h2
          · exact Or.inl (h.trans h2)
          · exact Or.inr (by simp [List.take_succ_cons, h.trans h2])
        · exact Or.inr (by simp [List.take_succ_cons, Or.inr h])
      · intro x hx
        simp only [List.take_succ_cons, List.mem_cons] at hx
        rcases hx with hx | hx
        · rw [hx]; exact le_trans (le_max_right a c) hax
        · exact hub x hx

lemma zip_map_getElem? {α : Type} (f : Cell × Cell → α)
    (l1 : List Cell) : ∀ (l2 : List Cell) (i : ℕ) (x y : Cell),
    l1[i]? = some x → l2[i]? = some y →
    ((l1.zip l2).map f)[i]? = some (f (x, y)) := by
  induction l1 with
  | nil => intro l2 i x y hx _; simp at hx
  | cons a l1t ih =>
    intro l2 i x y hx hy
    cases l2 with
    | nil => simp at hy
    | cons b l2t =>
      cases i with
      | zero =>
        simp only [List.getElem?_cons_zero, Option.some.injEq] at hx hy
        simp [List.zip_cons_cons, hx, hy]
      | succ j =>
        simp only [List.getElem?_cons_succ] at hx hy
        simpa [List.zip_cons_cons] using ih l2t j x y hx hy

lemma getLast?_cons_of_ne_nil {α : Type} (a : α) (l : List α) (h : l ≠ []) :
    (a :: l).getLast? = l.getLast? := by
  cases l with
  | nil => exact absurd rfl h
  | cons b t => exact List.getLast?_cons_cons

/-! ## The claims -/

/-- **C1.** For every `NormalizedSeries` with `n ≥ 2` rows of strictly
positive close prices (close column `c0 :: cs`, `cs ≠ []`), the last
value of the Cumulative Return column produced by `get_stock_data`
(cumulative product of `1 + Daily Return`, minus 1) equals
`Close[n]/Close[1] − 1 = cs.getLast / c0 − 1`, and this is exactly the
value `total_return` (line 121) reports as Total Return. -/
theorem C1_cumret_last_is_total_return (raw : RawTable) (name : String)
    (c0 : ℚ) (cs : List ℚ)
    (hraw : raw.isEmpty = false)
    (hcand : firstCloseCandidate (flattenRaw raw)
      = some (name, (c0 :: cs).map some))
    (hne : cs ≠ [])
    (hpos : ∀ c ∈ c0 :: cs, 0 < c) :
    ∃ t cr, get_stock_data raw = .ok t ∧
      getCol t "Cumulative Return" = some cr ∧
      cr.getLast? = some (some (cs.getLast hne / c0 - 1)) ∧
      total_return t = some (cs.getLast hne / c0 - 1) := by
  have h0 : c0 ≠ 0 := ne_of_gt (hpos c0 (by simp))
  have hcs : ∀ c ∈ cs, c ≠ 0 := fun c hc => ne_of_gt (hpos c (by simp [hc]))
  have hlast : (cumulativeReturn (pctChange ((c0 :: cs).map some))).getLast?
      = some (some (cs.getLast hne / c0 - 1)) := by
    rw [cumulativeReturn_defined c0 cs h0 hcs]
    rw [getLast?_cons_of_ne_nil _ _ (by simpa using hne)]
    rw [List.getLast?_map, List.getLast?_eq_getLast cs hne]
    rfl
  refine ⟨normTable (flattenRaw raw) ((c0 :: cs).map some),
    cumulativeReturn (pctChange ((c0 :: cs).map some)), ?_, ?_, hlast, ?_⟩
  · rw [get_stock_data_ok_iff]
    exact ⟨hraw, (name, (c0 :: cs).map some), hcand, rfl⟩
  · exact normTable_cr _ _
  · unfold total_return
    rw [normTable_cr]
    rw [Option.some_bind, hlast]
    rfl

/-- Witness for C1 on the two-row series with closes 100, 110:
total return is 10%. -/
theorem C1_witness :
    ∃ t cr,
      get_stock_data (.flat [("Close", [some 100, some 110])]) = .ok t ∧
      getCol t "Cumulative Return" = some cr ∧
      cr.getLast? = some (some ((1 : ℚ) / 10)) ∧
      total_return t = some ((1 : ℚ) / 10) := by
  have h := C1_cumret_last_is_total_return
    (.flat [("Close", [some 100, some 110])]) "Close" 100 [110]
    (by rfl) (by rfl) (by simp)
    (by intro c hc; rcases List.mem_cons.mp hc with h | h
        · rw [h]; norm_num
        · simp only [List.mem_singleton] at h; rw [h]; norm_num)
  obtain ⟨t, cr, h1, h2, h3, h4⟩ := h
  have hv : ([(110 : ℚ)].getLast (by simp)) / 100 - 1 = (1 : ℚ) / 10 := by
    norm_num
  exact ⟨t, cr, h1, h2, by rw [← hv]; exact h3, by rw [← hv]; exact h4⟩

lemma topScan_spec (c0 : ℚ) (cs : List ℚ) (i : ℕ)
    (hi : i < (c0 :: cs).length) :
    ∃ c m, (c0 :: cs)[i]? = some c ∧ (c0 :: scanMax c0 cs)[i]? = some m ∧
      c ≤ m ∧ m ∈ (c0 :: cs).take (i + 1) ∧
      ∀ x ∈ (c0 :: cs).take (i + 1), x ≤ m := by
  cases i with
  | zero =>
    refine ⟨c0, c0, by simp, by simp, le_refl c0, by simp, ?_⟩
    intro x hx
    simp only [List.take_succ_cons, List.take_zero, List.mem_singleton] at hx
    rw [hx]
  | succ j =>
    have hj : j < cs.length := by simpa using hi
    obtain ⟨c, m, hc, hm, hle, hax, hmem, hub⟩ := scanMax_spec cs c0 j hj
    refine ⟨c, m, by simpa using hc, by simpa using hm, hle, ?_, ?_⟩
    · rcases hmem with h | h
      · exact by simp [List.take_succ_cons, h]
      · exact by simp [List.take_succ_cons, Or.inr h]
    · intro x hx
      simp only [List.take_succ_cons, List.mem_cons] at hx
      rcases hx with hx | hx
      · rw [hx]; exact hax
      · exact hub x hx

/-- **C2.** For every `NormalizedSeries` with strictly positive close
prices `c0 :: cs`, at every row `i` the Max Drawdown column computed by
`get_stock_data` holds `c / m − 1` where `c` is the close at row `i` and
`m` the running maximum of the closes up to row `i`; this value is `≤ 0`,
with equality exactly when the close equals the running maximum. -/
theorem C2_max_drawdown_nonpos (raw : RawTable) (name : String)
    (c0 : ℚ) (cs : List ℚ)
    (hraw : raw.isEmpty = false)
    (hcand : firstCloseCandidate (flattenRaw raw)
      = some (name, (c0 :: cs).map some))
    (hpos : ∀ c ∈ c0 :: cs, 0 < c)
    (i : ℕ) (hi : i < (c0 :: cs).length) :
    ∃ t md c m, get_stock_data raw = .ok t ∧
      getCol t "Max Drawdown" = some md ∧
      (c0 :: cs)[i]? = some c ∧
      md[i]? = some (some (c / m - 1)) ∧
      c / m - 1 ≤ 0 ∧
      (c / m - 1 = 0 ↔ c = m) ∧
      m ∈ (c0 :: cs).take (i + 1) ∧
      ∀ x ∈ (c0 :: cs).take (i + 1), x ≤ m := by
  obtain ⟨c, m, hc, hm, hle, hmem, hub⟩ := topScan_spec c0 cs i hi
  have hmpos : 0 < m := hpos m (List.take_subset _ _ hmem)
  have hmd : (maxDrawdownCol ((c0 :: cs).map some))[i]?
      = some (some (c / m - 1)) := by
    unfold maxDrawdownCol
    rw [cummax_defined]
    have hcc : ((c0 :: cs).map some)[i]? = some (some c) := by
      rw [List.getElem?_map, hc]; rfl
    have hmm : ((c0 :: scanMax c0 cs).map some)[i]? = some (some m) := by
      rw [List.getElem?_map, hm]; rfl
    rw [zip_map_getElem? _ _ _ i (some c) (some m) hcc hmm]
    simp only [if_neg (ne_of_gt hmpos)]
  refine ⟨normTable (flattenRaw raw) ((c0 :: cs).map some),
    maxDrawdownCol ((c0 :: cs).map some), c, m, ?_, normTable_md _ _, hc, hmd,
    ?_, ?_, hmem, hub⟩
  · rw [get_stock_data_ok_iff]
    exact ⟨hraw, (name, (c0 :: cs).map some), hcand, rfl⟩
  · have : c / m ≤ 1 := (div_le_one hmpos).mpr hle
    linarith
  · rw [sub_eq_zero]
    exact div_eq_one_iff_eq (ne_of_gt hmpos)

/-- Witness for C2 on closes 100, 90 at row 0: the close is the running
maximum there and the drawdown is exactly 0. -/
theorem C2_witness :
    ∃ t md, get_stock_data (.flat [("Close", [some 100, some 90])]) = .ok t ∧
      getCol t "Max Drawdown" = some md ∧
      md[0]? = some (some (0 : ℚ)) := by
  have h := C2_max_drawdown_nonpos
    (.flat [("Close", [some 100, some 90])]) "Close" 100 [90]
    (by rfl) (by rfl)
    (by intro c hc; rcases List.mem_cons.mp hc with h | h
        · rw [h]; norm_num
        · simp only [List.mem_singleton] at h; rw [h]; norm_num)
    0 (by simp)
  obtain ⟨t, md, c, m, h1, h2, hc, hmd, -, -, hmem, -⟩ := h
  have hceq : c = 100 := by
    simp only [List.getElem?_cons_zero, Option.some.injEq] at hc
    exact hc.symm
  have hmeq : m = 100 := by
    simp only [List.take_succ_cons, List.take_zero, List.mem_singleton] at hmem
    exact hmem
  refine ⟨t, md, h1, h2, ?_⟩
  rw [hmd, hceq, hmeq]
  norm_num

/-- **C10** (implicit). For every `NormalizedSeries` (positive closes
`c0 :: cs`), the first row of the Cumulative Return column is null — the
undefined first Daily Return propagates through the skip-null cumulative
product — while every later row `i+1` holds a defined value `v` with
`1 + v` the product of `1 + r` over the defined Daily Return entries of
rows `2..i+1` (the spec's null-or-0 ambiguity resolves to null). -/
theorem C10_first_cumret_null (raw : RawTable) (name : String)
    (c0 : ℚ) (cs : List ℚ)
    (hraw : raw.isEmpty = false)
    (hcand : firstCloseCandidate (flattenRaw raw)
      = some (name, (c0 :: cs).map some))
    (hpos : ∀ c ∈ c0 :: cs, 0 < c) :
    ∃ t cr dr, get_stock_data raw = .ok t ∧
      getCol t "Cumulative Return" = some cr ∧
      getCol t "Daily Return" = some dr ∧
      cr[0]? = some none ∧
      ∀ i : ℕ, i < cs.length →
        ∃ v, cr[i + 1]? = some (some v) ∧
          1 + v = (((dr.take (i + 2)).filterMap id).map (fun r => 1 + r)).prod := by
  have h0 : c0 ≠ 0 := ne_of_gt (hpos c0 (by simp))
  have hcs : ∀ c ∈ cs, c ≠ 0 := fun c hc => ne_of_gt (hpos c (by simp [hc]))
  have hcr : cumulativeReturn (pctChange ((c0 :: cs).map some))
      = none :: cs.map (fun c => some (c / c0 - 1)) :=
    cumulativeReturn_defined c0 cs h0 hcs
  have hdr : pctChange ((c0 :: cs).map some)
      = none :: (pctVals c0 cs).map some :=
    pctChange_defined c0 cs h0 hcs
  refine ⟨normTable (flattenRaw raw) ((c0 :: cs).map some),
    cumulativeReturn (pctChange ((c0 :: cs).map some)),
    pctChange ((c0 :: cs).map some), ?_, normTable_cr _ _, normTable_dr _ _,
    ?_, ?_⟩
  · rw [get_stock_data_ok_iff]
    exact ⟨hraw, (name, (c0 :: cs).map some), hcand, rfl⟩
  · rw [hcr]; simp
  · intro i hi
    refine ⟨cs.get ⟨i, hi⟩ / c0 - 1, ?_, ?_⟩
    · rw [hcr]
      simp only [List.getElem?_cons_succ, List.getElem?_map]
      rw [List.getElem?_eq_getElem hi]
      rfl
    · rw [hdr]
      have hstep : ((((none :: (pctVals c0 cs).map some).take (i + 2)).filterMap id).map
            (fun r => 1 + r)).prod = ((ratios c0 cs).take (i + 1)).prod := by
        rw [List.take_succ_cons]
        rw [show List.filterMap id (none :: ((pctVals c0 cs).map some).take (i + 1))
            = List.filterMap id (((pctVals c0 cs).map some).take (i + 1)) from rfl]
        rw [← List.map_take, List.filterMap_map]
        rw [show (id ∘ some : ℚ → Option ℚ) = some from rfl, List.filterMap_some]
        rw [List.map_take, pctVals_add_one]
      rw [hstep, ratios_take_prod cs c0 i hi h0 hcs]
      ring

/-- Witness for C10 on closes 100, 110: the first Cumulative Return cell
is null and the second compounds the single defined daily return. -/
theorem C10_witness :
    ∃ t cr dr,
      get_stock_data (.flat [("Close", [some 100, some 110])]) = .ok t ∧
      getCol t "Cumulative Return" = some cr ∧
      getCol t "Daily Return" = some dr ∧
      cr[0]? = some none ∧
      ∃ v, cr[1]? = some (some v) ∧
        1 + v = (((dr.take 2).filterMap id).map (fun r => 1 + r)).prod := by
  have h := C10_first_cumret_null
    (.flat [("Close", [some 100, some 110])]) "Close" 100 [110]
    (by rfl) (by rfl)
    (by intro c hc; rcases List.mem_cons.mp hc with h | h
        · rw [h]; norm_num
        · simp only [List.mem_singleton] at h; rw [h]; norm_num)
  obtain ⟨t, cr, dr, h1, h2, h3, h4, h5⟩ := h
  exact ⟨t, cr, dr, h1, h2, h3, h4, h5 0 (by norm_num)⟩

/-- **C3.** For every non-empty raw table, `get_stock_data` locates the
close column by a case-insensitive substring match on "close" over the
flattened column names (`hasCloseSub` is exactly infix-of-lowercased);
when some column matches, the first matching column in column order is
the authoritative one and its values become the canonical Close column of
the returned `NormalizedSeries`; when no column matches, the result is
the `noClose` (MissingField) error and no series is produced. -/
theorem C3_close_column_location (raw : RawTable)
    (hraw : raw.isEmpty = false) :
    (∀ name, hasCloseSub name = true ↔ "close".toList <:+: lowerName name) ∧
    (∀ cand, firstCloseCandidate (flattenRaw raw) = some cand →
      hasCloseSub cand.1 = true ∧
      (∃ pre suf, (flattenRaw raw).cols = pre ++ cand :: suf ∧
        ∀ x ∈ pre, hasCloseSub x.1 = false) ∧
      ∃ t, get_stock_data raw = .ok t ∧ getCol t "Close" = some cand.2) ∧
    ((∀ col ∈ (flattenRaw raw).cols, hasCloseSub col.1 = false) →
      get_stock_data raw = .noClose) := by
  refine ⟨?_, ?_, ?_⟩
  · intro name
    unfold hasCloseSub
    exact decide_eq_true_iff
  · intro cand hcand
    obtain ⟨hp, pre, suf, hdecomp, hpre⟩ :=
      List.find?_eq_some.mp hcand
    refine ⟨hp, ⟨pre, suf, hdecomp, ?_⟩, ?_⟩
    · intro x hx
      have := hpre x hx
      simpa using this
    · refine ⟨normTable (flattenRaw raw) cand.2, ?_, normTable_close _ _⟩
      rw [get_stock_data_ok_iff]
      exact ⟨hraw, cand, hcand, rfl⟩
  · intro hnone
    have hc : firstCloseCandidate (flattenRaw raw) = none := by
      unfold firstCloseCandidate
      rw [List.find?_eq_none]
      intro x hx
      simp [hnone x hx]
    unfold get_stock_data
    rw [hraw, if_neg (by simp)]
    simp only []
    rw [hc]

/-- Witness for C3: on the spec's §8 example columns
`Open, High, Low, Adj_Close, Volume`, normalization succeeds and the
canonical Close column copies `Adj_Close`. -/
theorem C3_witness :
    ∃ t, get_stock_data (.flat [("Open", [some 1]), ("High", [some 2]),
        ("Low", [some 3]), ("Adj_Close", [some 4]), ("Volume", [some 5])])
      = .ok t ∧ getCol t "Close" = some [some 4] := by
  have h := C3_close_column_location
    (.flat [("Open", [some 1]), ("High", [some 2]), ("Low", [some 3]),
      ("Adj_Close", [some 4]), ("Volume", [some 5])]) (by rfl)
  exact (h.2.1 ("Adj_Close", [some 4]) (by rfl)).2.2

/-- **C4.** Flattening a two-level column name joins its non-empty levels
with `_`: `(f, s)` with `f ≠ ""` becomes `f` when the second level is
blank and `f_s` otherwise; in particular `(Close, AAPL)` becomes
`Close_AAPL` and `(Close, "")` becomes `Close`; and for every ticker the
flattened `(Close, ticker)` name remains locatable by the
case-insensitive "close" substring match. -/
theorem C4_flatten_multiindex (f s : String) (hf : f ≠ "") :
    flattenName [f, s] = (if s = "" then f else f ++ "_" ++ s) ∧
    flattenName ["Close", "AAPL"] = "Close_AAPL" ∧
    flattenName ["Close", ""] = "Close" ∧
    (∀ tick : String, hasCloseSub (flattenName ["Close", tick]) = true) := by
  refine ⟨?_, by rfl, by rfl, ?_⟩
  · unfold flattenName
    have h1 : (f != "") = true := by simpa using hf
    by_cases hs : s = ""
    · subst hs
      rw [if_pos rfl]
      have hfil : [f, ""].filter (fun l => l != "") = [f] := by
        simp [List.filter_cons, h1]
      rw [hfil]
      rfl
    · rw [if_neg hs]
      have h2 : (s != "") = true := by simpa using hs
      have hfil : [f, s].filter (fun l => l != "") = [f, s] := by
        simp [List.filter_cons, h1, h2]
      rw [hfil]
      rfl
  · intro tick
    by_cases ht : tick = ""
    · subst ht
      decide
    · have hflat : flattenName ["Close", tick] = "Close_" ++ tick := by
        unfold flattenName
        have h2 : (tick != "") = true := by simpa using ht
        have hfil : ["Close", tick].filter (fun l => l != "")
            = ["Close", tick] := by
          simp [List.filter_cons, h2]
        rw [hfil]
        rfl
      rw [hflat]
      unfold hasCloseSub
      rw [decide_eq_true_iff]
      apply List.IsPrefix.isInfix
      unfold lowerName
      have h : ("Close_" ++ tick).toList = "Close_".toList ++ tick.toList := by
        simp [String.toList]
      rw [h, List.map_append]
      have h2 : "Close_".toList.map Char.toLower = "close_".toList := by decide
      rw [h2]
      exact (List.prefix_append _ _).trans
        ((List.prefix_append _ _).trans (by rfl))

/-- Witness for C4 at the spec's example `(Close, AAPL)`. -/
theorem C4_witness :
    flattenName ["Close", "AAPL"] = "Close_AAPL" ∧
    hasCloseSub (flattenName ["Close", "AAPL"]) = true :=
  ⟨(C4_flatten_multiindex "Close" "AAPL" (by decide)).2.1,
    (C4_flatten_multiindex "Close" "AAPL" (by decide)).2.2.2 "AAPL"⟩

/-- **C8.** `avg_daily_return` is the skip-null mean of Daily Return —
the undefined first value is ignored — and `volatility` uses the sample
(`n−1`) convention, undefined with fewer than two defined returns; for a
one-row series both come out null (not fabricated as zero). -/
theorem C8_single_row_metrics_undefined (raw : RawTable) (name : String)
    (v : Cell)
    (hraw : raw.isEmpty = false)
    (hcand : firstCloseCandidate (flattenRaw raw) = some (name, [v])) :
    (∀ l : List Cell, meanSkipna (none :: l) = meanSkipna l) ∧
    (∀ l : List Cell, (l.filterMap id).length < 2 → sampleVar l = none) ∧
    ∃ t, get_stock_data raw = .ok t ∧
      avg_daily_return t = none ∧ volatility t = none := by
  refine ⟨fun l => rfl, ?_, ?_⟩
  · intro l hl
    unfold sampleVar
    simp only [hl, if_pos]
  · refine ⟨normTable (flattenRaw raw) [v], ?_, ?_, ?_⟩
    · rw [get_stock_data_ok_iff]
      exact ⟨hraw, (name, [v]), hcand, rfl⟩
    · unfold avg_daily_return
      rw [normTable_dr, Option.some_bind]
      cases v <;> rfl
    · unfold volatility
      rw [normTable_dr, Option.some_bind]
      cases v <;> rfl

/-- Witness for C8 on the one-row series with close 5. -/
theorem C8_witness :
    ∃ t, get_stock_data (.flat [("Close", [some 5])]) = .ok t ∧
      avg_daily_return t = none ∧ volatility t = none :=
  (C8_single_row_metrics_undefined (.flat [("Close", [some 5])]) "Close"
    (some 5) (by rfl) (by rfl)).2.2

/-- **C9.** Whenever `start > end`, or `start` lies in the future, or
`end` lies in the future, the script run halts at validation: zero fetch
calls are issued, the normalizer is never reached, and the outcome is the
invalid-range warning — regardless of what a fetch would have returned. -/
theorem C9_invalid_range_halts (today startD endD : ℤ) (raw : RawTable)
    (h : startD > endD ∨ startD > today ∨ endD > today) :
    run_script today startD endD raw
      = ⟨0, false, Outcome.invalidRange⟩ := by
  unfold run_script
  rw [if_pos h]

/-- Witness for C9: start day 5 after end day 3 halts with no fetch. -/
theorem C9_witness :
    run_script 10 5 3 (.flat [("Close", [some 1])])
      = ⟨0, false, Outcome.invalidRange⟩ :=
  C9_invalid_range_halts 10 5 3 (.flat [("Close", [some 1])])
    (Or.inl (by norm_num))

/-- Projection of a normalization result onto its table, for closed
statements about concrete runs. -/
def okTable : NormResult → Option Table
  | .ok t => some t
  | _ => none

/-- **C5, counterexample.** The claim says any null in the canonical
Close column makes the chart stage fail fast.  It does not: the code
halts only when `Close.dropna()` is empty (line 96).  A series whose
Close is `[null, 100]` contains a null yet is handed to the plotting
call. -/
theorem C5_counterexample :
    chart_stage ⟨[("Close", [none, some 100])]⟩
      = ChartOutcome.rendered [none, some 100] ∧
    none ∈ ([none, some 100] : List Cell) := by
  constructor
  · rfl
  · simp

/-- **C5, amended.** The chart stage fails fast (with the descriptive
"only null values" error, skipping the plotting call) exactly when the
canonical Close column contains no defined value at all; a series with
at least one defined close — nulls included — is handed to the plotting
call unchanged. -/
theorem C5_amended_all_null_halts (t : Table) (close : List Cell)
    (hc : getCol t "Close" = some close) :
    (close.filterMap id = [] → chart_stage t = ChartOutcome.allNull) ∧
    (close.filterMap id ≠ [] →
      chart_stage t = ChartOutcome.rendered close) := by
  unfold chart_stage
  simp only [hc]
  constructor
  · intro h
    rw [if_pos (by simp [h])]
  · intro h
    rw [if_neg (by simpa using h)]

/-- Witness for the amended C5: an entirely null Close column halts the
chart stage. -/
theorem C5_witness :
    chart_stage ⟨[("Close", [none, none])]⟩ = ChartOutcome.allNull :=
  (C5_amended_all_null_halts ⟨[("Close", [none, none])]⟩ [none, none]
    (by rfl)).1 rfl

/-- **C6, counterexample.** The claim maps every non-negative value —
zero included — to the positive visual treatment.  The code tests
`val > 0` (line 141), so a zero daily return receives the same treatment
as a negative one and not the one positives receive. -/
theorem C6_counterexample :
    highlight_returns (some 0) = highlight_returns (some (-1)) ∧
    highlight_returns (some 0) ≠ highlight_returns (some 1) := by
  have h0 : highlight_returns (some 0) = "color: red" := by
    simp only [highlight_returns]
    norm_num
  have hn : highlight_returns (some (-1)) = "color: red" := by
    simp only [highlight_returns]
    norm_num
  have h1 : highlight_returns (some 1) = "color: green" := by
    simp only [highlight_returns]
    norm_num
  rw [h0, hn, h1]
  exact ⟨rfl, by decide⟩

/-- **C6, amended.** `highlight_returns` is a pure function of the cell
(value and nullity), mapping every strictly positive value to the green
treatment, zero and every negative value to the red treatment, and a
null cell to the neutral blank — the underlying values are never
mutated (the function only reads its argument). -/
theorem C6_amended_coloring (v : ℚ) :
    highlight_returns none = "" ∧
    (0 < v → highlight_returns (some v) = "color: green") ∧
    (v ≤ 0 → highlight_returns (some v) = "color: red") := by
  refine ⟨rfl, ?_, ?_⟩
  · intro h
    simp only [highlight_returns]
    rw [if_pos h]
  · intro h
    simp only [highlight_returns]
    rw [if_neg (not_lt.mpr h)]

/-- Witness for the amended C6 at value 1 (green) — and, via `v ≤ 0`
at 0, red. -/
theorem C6_witness :
    highlight_returns (some 1) = "color: green" ∧
    highlight_returns (some 0) = "color: red" :=
  ⟨(C6_amended_coloring 1).2.1 (by norm_num),
    (C6_amended_coloring 0).2.2 (by norm_num)⟩

/-- **C7, counterexample.** The claim says every original column survives
unchanged.  It does not: when a close-like column precedes a column
literally named `Close`, line 47 (`df["Close"] = df[close_col]`)
overwrites the original `Close` column.  With raw columns
`Adj Close = [2]`, `Close = [3]` the normalized `Close` holds `[2]`,
not the original `[3]`. -/
theorem C7_counterexample :
    ((okTable (get_stock_data
        (.flat [("Adj Close", [some 2]), ("Close", [some 3])]))).bind
      (fun t => getCol t "Close")) = some [some 2] ∧
    getCol (flattenRaw (.flat [("Adj Close", [some 2]), ("Close", [some 3])]))
        "Close" = some [some 3] ∧
    ([some 2] : List Cell) ≠ [some 3] := by
  refine ⟨rfl, rfl, by simp⟩

/-- **C7, amended.** Normalization is non-destructive except on the four
reserved names: every original column whose (flattened) name is none of
`Close`, `Daily Return`, `Cumulative Return`, `Max Drawdown` is present
unchanged; the canonical `Close` column equals the authoritative (first
matching) close column value-for-value; and no other column is added —
any original column bearing one of the four reserved names is
overwritten by the canonical/derived series. -/
theorem C7_amended_nondestructive (raw : RawTable) (t : Table)
    (hok : get_stock_data raw = .ok t) :
    (∀ m, m ≠ "Close" → m ≠ "Daily Return" → m ≠ "Cumulative Return" →
      m ≠ "Max Drawdown" → getCol t m = getCol (flattenRaw raw) m) ∧
    (∀ cand, firstCloseCandidate (flattenRaw raw) = some cand →
      getCol t "Close" = some cand.2) := by
  obtain ⟨-, cand, hcand, ht⟩ := (get_stock_data_ok_iff raw t).mp hok
  subst ht
  constructor
  · intro m h1 h2 h3 h4
    exact normTable_other _ _ m h1 h2 h3 h4
  · intro cand2 hcand2
    rw [hcand] at hcand2
    cases hcand2
    exact normTable_close _ _

/-- Witness for the amended C7: with columns `Open`, `Close`, the `Open`
column survives normalization unchanged and `Close` copies itself. -/
theorem C7_witness :
    getCol (normTable (flattenRaw (.flat [("Open", [some 1]),
        ("Close", [some 2])])) [some 2]) "Open"
      = getCol (flattenRaw (.flat [("Open", [some 1]), ("Close", [some 2])]))
          "Open" ∧
    getCol (normTable (flattenRaw (.flat [("Open", [some 1]),
        ("Close", [some 2])])) [some 2]) "Close" = some [some 2] := by
  have h := C7_amended_nondestructive
    (.flat [("Open", [some 1]), ("Close", [some 2])])
    (normTable (flattenRaw (.flat [("Open", [some 1]), ("Close", [some 2])]))
      [some 2])
    (by rw [get_stock_data_ok_iff]
        exact ⟨rfl, ("Close", [some 2]), rfl, rfl⟩)
  exact ⟨h.1 "Open" (by decide) (by decide) (by decide) (by decide),
    h.2 ("Close", [some 2]) rfl⟩

end StockDash
